import Mathlib

/-!
Shallow embedding of `labcore/instruments/opx/sweep.py` (class `RecordOPXdata`),
the batched acquisition engine for the OPX streaming backend.

The embedding follows the Python source line by line:
* `resolveSpecs`    — `RecordOPXdata.__init__` (lines 86-97): spec expansion and
  the `user_data` list of synthetic `_time_points` names;
* `waitForData`     — `RecordOPXdata._wait_for_data` (lines 132-174): the poll
  loop over result handles, with its `statuses` / `processing` lists;
* `getDataFromHandle`, `processSpec`, `processSpecs`, `collectIteration` —
  the body of `RecordOPXdata.collect` (lines 197-281);
* `collectLoop`, `runCollect` — the `while self.communicator['active']` loop
  and the `try/finally` around it (cleanup on every exit path);
* `setupLifecycle`, `cleanup` — session-ownership bookkeeping in
  `RecordOPXdata.setup` (lines 105-129) and `RecordOPXdata.cleanup`
  (lines 176-193) over the module globals `qmachine` / `qmachine_mgr`.

Machine data is modelled with explicit shapes: `NDArray` carries a numpy-style
shape list plus row-major flattened data, `squeeze` drops all axes of size 1
exactly as `np.squeeze` does.  Backend handles are modelled by `HandleState`
(current `count_so_far`, per-sample shape, flattened sample values); one
`collect` iteration reads a snapshot `Env : String → Option HandleState` of the
result handles, and one run reads a list of such snapshots (one per iteration)
plus a list of waiter polls.  Python exceptions are modelled by `Err`:
`configurationError` is the `RuntimeError` of line 261 (the spec's
ConfigurationError), `unsupportedShapeError` the `NotImplementedError` of line
278 (the spec's UnsupportedShapeError), `indexError` the `IndexError` a 0-d
array raises at `data.shape[-1]` (line 272), `attributeError` the
`AttributeError` raised by calling a method on a `None` handle or manager.
-/

namespace LabcoreOPX

/-- numpy-style n-dimensional array: explicit shape and row-major flattened
data. -/
structure NDArray (α : Type) where
  shape : List Nat
  data : List α
deriving DecidableEq

/-- `np.squeeze`: drop every axis of size 1; the flattened data is unchanged. -/
def squeeze {α : Type} (a : NDArray α) : NDArray α :=
  ⟨a.shape.filter (fun d => d ≠ 1), a.data⟩

/-- backend stream handle at one instant: `count_so_far`, the shape of one
sample, and the flattened stream contents. -/
structure HandleState where
  count : Nat
  innerShape : List Nat
  vals : Nat → Int

/-- snapshot of the job result handles: `none` models a stream name that is
absent from the advertised handles (`name not in result_handle`, and
`result_handle.get(name)` returning `None`). -/
def Env := String → Option HandleState

/-- `handle.fetch(slice(lo, hi))['value']`: the raw (pre-squeeze) array of the
samples with indices in `[lo, hi)`; its shape is the slice length followed by
the per-sample shape. -/
def fetchSlice (h : HandleState) (lo hi : Nat) : NDArray Int :=
  ⟨(hi - lo) :: h.innerShape,
   (List.range ((hi - lo) * h.innerShape.prod)).map
     (fun k => h.vals (lo * h.innerShape.prod + k))⟩

/-- Python exceptions of the acquisition engine (see the header comment for
the source line of each constructor). -/
inductive Err where
  | configurationError (name : String)
  | unsupportedShapeError
  | indexError
  | attributeError
  | valueError
deriving DecidableEq

/-- one value of the `return_data` dictionary: `vnone` is Python `None`,
`real` a fetched numpy array, `cplx` the array `idata + 1j*qdata` with each
complex entry represented as the pair (real part, imaginary part). -/
inductive CellValue where
  | vnone
  | real (a : NDArray Int)
  | cplx (a : NDArray (Int × Int))
deriving DecidableEq

/-- the `return_data` dictionary: insertion-ordered association list. -/
abbrev Record := List (String × CellValue)

/-- `return_data[k] = v`: overwrite in place when the key exists, append
otherwise (Python dict assignment). -/
def setKey (r : Record) (k : String) (v : CellValue) : Record :=
  if r.any (fun p => p.1 == k) then r.map (fun p => if p.1 == k then (k, v) else p)
  else r ++ [(k, v)]

/-- lookup in a `Record`. -/
def getKey (r : Record) (k : String) : Option CellValue :=
  (r.find? (fun p => p.1 == k)).map Prod.snd

/-- one resolved data spec: `plain` covers plain `DataSpec`s (including the
synthetic `indep(name + "_time_points")` specs), `timed` is `TimedOPXData`,
`cplx` is `ComplexOPXData` with its `i_data_stream` / `q_data_stream` names. -/
inductive OPXSpec where
  | plain (name : String)
  | timed (name : String)
  | cplx (name : String) (iStream qStream : String)
deriving DecidableEq

/-- the `name` attribute of a spec. -/
def OPXSpec.name : OPXSpec → String
  | .plain n => n
  | .timed n => n
  | .cplx n _ _ => n

/-- `RecordOPXdata.__init__` (lines 86-97): build `self.specs` and
`self.user_data`.  Every declaration is appended to the plan; right after a
`TimedOPXData` declaration the synthetic spec `indep(name + "_time_points")`
is appended, and its name is recorded in `user_data`. -/
def resolveSpecs : List OPXSpec → List OPXSpec × List String
  | [] => ([], [])
  | s :: rest =>
    let r := resolveSpecs rest
    match s with
    | OPXSpec.timed n =>
      (OPXSpec.timed n :: OPXSpec.plain (n ++ "_time_points") :: r.1,
       (n ++ "_time_points") :: r.2)
    | s => (s :: r.1, r.2)

/-! ## The batch waiter (`_wait_for_data`, lines 132-174) -/

/-- the `statuses` list built by one pass of the poll loop: a handle observed
while the job processes contributes `current - counter >= batchsize`
(Python int comparison, hence over `Int`), a handle observed after processing
stopped contributes `True`. -/
def pollStatuses (counter batchsize : Nat) (p : List (Nat × Bool)) : List Bool :=
  p.map (fun ob =>
    if ob.2 then decide ((batchsize : Int) ≤ (ob.1 : Int) - (counter : Int))
    else true)

/-- the `processing` list built by one pass of the poll loop: exactly the
observed `is_processing()` values. -/
def pollProcessing (p : List (Nat × Bool)) : List Bool :=
  p.map Prod.snd

/-- `_wait_for_data`'s `while not ready` loop, driven by an explicit schedule
of polls (each poll lists, per handle, the observed count and processing
flag).  Returns `some (active, k)` when poll `k` resolves ready, where
`active` is `communicator['active']` afterwards; `none` means the schedule ran
out while the loop would still be polling. -/
def waitForData (counter batchsize : Nat) :
    List (List (Nat × Bool)) → Bool → Option (Bool × Nat)
  | [], _ => none
  | p :: rest, active =>
    let ready := !((pollStatuses counter batchsize p).contains false)
    let active2 := if (pollProcessing p).contains true then active else false
    if ready then some (active2, 0)
    else
      match waitForData counter batchsize rest active2 with
      | none => none
      | some (a, k) => some (a, k + 1)

/-! ## One `collect` iteration (lines 212-281) -/

/-- `get_data_from_handle(name, up_to)` (lines 227-233): `None` when
`up_to == counter`; otherwise fetch `[counter, up_to)` and squeeze.  A missing
handle models `result_handle.get(name)` returning `None`, on which the
subsequent `wait_for_values` call raises `AttributeError`. -/
def getDataFromHandle (env : Env) (counter : Nat) (name : String) (upTo : Nat) :
    Except Err (Option (NDArray Int)) :=
  if upTo = counter then Except.ok none
  else
    match env name with
    | none => Except.error Err.attributeError
    | some h => Except.ok (some (squeeze (fetchSlice h counter upTo)))

/-- `idata + 1j*qdata` for equal shapes: pair the flattened entries
elementwise, the i entry giving the real and the q entry the imaginary part.
(The fetches of one iteration cover the same index range, so the paired
arrays of a Complex column have equal shapes whenever the two streams have
the same per-sample shape; numpy broadcasting of unequal shapes is outside
the claims and not modelled.) -/
def complexCombine (a b : NDArray Int) : Option (NDArray (Int × Int)) :=
  if a.shape = b.shape then some ⟨a.shape, a.data.zip b.data⟩ else none

/-- mutable state of one iteration of the `for i, ds in enumerate(self.specs)`
loop: `return_data`, `available_points`, plus an audit trail of the backend
fetches performed (stream name, lower bound, upper bound). -/
structure IterState where
  returnData : Record
  availablePoints : Nat
  fetches : List (String × Nat × Nat)
deriving DecidableEq

/-- `np.arange(1, n + 1)` as a list of machine integers. -/
def arangeOneTo (n : Nat) : List Int :=
  (List.range n).map (fun k => (k : Int) + 1)

/-- lines 271-278: `tvals = np.arange(1, data.shape[-1]+1)` followed by the
rank dispatch.  `data.shape[-1]` on a 0-d array raises `IndexError`; rank 1
gives `tvals` itself; rank 2 gives `np.tile(tvals, R).reshape(R, -1)`; any
higher rank raises the `NotImplementedError` of line 278. -/
def timeVals (data : NDArray Int) : Except Err (NDArray Int) :=
  match data.shape.getLast? with
  | none => Except.error Err.indexError
  | some n =>
    let tvals := arangeOneTo n
    if data.shape.length = 1 then Except.ok ⟨[n], tvals⟩
    else if data.shape.length = 2 then
      Except.ok ⟨[data.shape.headD 0, n], (List.replicate (data.shape.headD 0) tvals).flatten⟩
    else Except.error Err.unsupportedShapeError

/-- one step of the `for i, ds in enumerate(self.specs)` loop (lines 235-278),
processing spec `ds` at index `i` with the stored counter `counter`.

* `ComplexOPXData`: at `i = 0` set `available_points` from the I stream's
  `count_so_far()`; fetch both streams up to `available_points`; when both
  fetches return data, store their elementwise complex combination; when both
  return `None` (no new points), store nothing for this column (the Python
  diagnostic prints have no effect on the state and are not modelled).
* a spec whose name is in `user_data`: `continue`.
* a spec whose name is missing from the result handles: raise the
  `RuntimeError` of line 261 (`configurationError`).
* otherwise: at `i = 0` set `available_points` from this stream's
  `count_so_far()`; fetch and store (a `None` fetch is stored as `None`).
  For a `TimedOPXData` spec additionally synthesize the `_time_points` entry
  from the fetched array's shape (lines 269-278, `timeVals`). -/
def processSpec (env : Env) (counter : Nat) (userData : List String) (i : Nat)
    (ds : OPXSpec) (st : IterState) : Except Err IterState :=
  match ds with
  | OPXSpec.cplx nm iname qname =>
    match (if i = 0 then (env iname).map HandleState.count
           else some st.availablePoints) with
    | none => Except.error Err.attributeError
    | some ap =>
      match getDataFromHandle env counter iname ap,
            getDataFromHandle env counter qname ap with
      | Except.error e, _ => Except.error e
      | _, Except.error e => Except.error e
      | Except.ok idata, Except.ok qdata =>
        let tr := st.fetches ++
          (if ap = counter then [] else [(iname, counter, ap), (qname, counter, ap)])
        match idata, qdata with
        | some ia, some qa =>
          match complexCombine ia qa with
          | none => Except.error Err.valueError
          | some ca => Except.ok ⟨setKey st.returnData nm (CellValue.cplx ca), ap, tr⟩
        | _, _ => Except.ok ⟨st.returnData, ap, tr⟩
  | OPXSpec.plain nm =>
    if nm ∈ userData then Except.ok st
    else
      match env nm with
      | none => Except.error (Err.configurationError nm)
      | some h =>
        let ap := if i = 0 then h.count else st.availablePoints
        match getDataFromHandle env counter nm ap with
        | Except.error e => Except.error e
        | Except.ok d =>
          let tr := st.fetches ++ (if ap = counter then [] else [(nm, counter, ap)])
          Except.ok ⟨setKey st.returnData nm
            (match d with
             | none => CellValue.vnone
             | some a => CellValue.real a), ap, tr⟩
  | OPXSpec.timed nm =>
    if nm ∈ userData then Except.ok st
    else
      match env nm with
      | none => Except.error (Err.configurationError nm)
      | some h =>
        let ap := if i = 0 then h.count else st.availablePoints
        match getDataFromHandle env counter nm ap with
        | Except.error e => Except.error e
        | Except.ok none =>
          Except.ok ⟨setKey st.returnData nm CellValue.vnone, ap, st.fetches⟩
        | Except.ok (some a) =>
          let tr := st.fetches ++ [(nm, counter, ap)]
          match timeVals a with
          | Except.error e => Except.error e
          | Except.ok tv =>
            Except.ok ⟨setKey (setKey st.returnData nm (CellValue.real a))
                (nm ++ "_time_points") (CellValue.real tv), ap, tr⟩

/-- the whole `for i, ds in enumerate(self.specs)` loop from index `i`. -/
def processSpecs (env : Env) (counter : Nat) (userData : List String) :
    List OPXSpec → Nat → IterState → Except Err IterState
  | [], _, st => Except.ok st
  | ds :: rest, i, st =>
    match processSpec env counter userData i ds st with
    | Except.error e => Except.error e
    | Except.ok st2 => processSpecs env counter userData rest (i + 1) st2

/-- initial per-iteration state (lines 214-217): empty `return_data`,
`available_points = 0`. -/
def initIterState : IterState := ⟨[], 0, []⟩

/-- one full iteration of the `while self.communicator['active']` loop after
`_wait_for_data` returned (lines 235-281, before counter update and yield). -/
def collectIteration (env : Env) (counter : Nat) (specs : List OPXSpec)
    (userData : List String) : Except Err IterState :=
  processSpecs env counter userData specs 0 initIterState

/-! ## The collect loop and the session lifecycle -/

/-- environment of one iteration of the collect loop: the waiter's poll
schedule and the handle snapshot the assembler reads afterwards. -/
structure IterEnv where
  polls : List (List (Nat × Bool))
  env : Env

/-- result of running the `while self.communicator['active']` loop:
the yielded iterations (each paired with the counter value it started from),
the final counter, the error that ended the loop (if any), and the final
`active` flag. -/
structure LoopRes where
  iters : List (Nat × IterState)
  finalCounter : Nat
  err : Option Err
  active : Bool

/-- the `while self.communicator['active']` loop (lines 212-281), driven by a
schedule of iteration environments.  Each iteration reads the counter, runs
the waiter (which may clear `active`), processes every spec, stores
`available_points` into the counter (line 280) and yields.  The loop stops
when `active` is false; an exhausted schedule (or a waiter whose polls ran
out, modelling an endless wait) stops the run as scheduled. -/
def collectLoop (specs : List OPXSpec) (userData : List String) (batchsize : Nat) :
    List IterEnv → Nat → Bool → LoopRes
  | _, c, false => ⟨[], c, none, false⟩
  | [], c, true => ⟨[], c, none, true⟩
  | ie :: rest, c, true =>
    match waitForData c batchsize ie.polls true with
    | none => ⟨[], c, none, true⟩
    | some (a, _) =>
      match collectIteration ie.env c specs userData with
      | Except.error e => ⟨[], c, some e, a⟩
      | Except.ok st =>
        let r := collectLoop specs userData batchsize rest st.availablePoints a
        ⟨(c, st) :: r.iters, r.finalCounter, r.err, r.active⟩

/-- module globals `qmachine` / `qmachine_mgr` (identified by numeric ids)
plus a log of the machine ids closed so far. -/
structure QMGlobals where
  qmachine : Option Nat
  qmachine_mgr : Option Nat
  closed : List Nat
deriving DecidableEq

/-- session-ownership part of `RecordOPXdata.setup` (lines 105-118): when
both globals are `None`, open a fresh manager and machine and set
`communicator['self_managed'] = True`; otherwise reuse the externally opened
session with `self_managed = False`. -/
def setupLifecycle (g : QMGlobals) (freshId : Nat) : QMGlobals × Bool :=
  if g.qmachine_mgr = none ∧ g.qmachine = none then
    ({ qmachine := some freshId, qmachine_mgr := some freshId, closed := g.closed }, true)
  else (g, false)

/-- `RecordOPXdata.cleanup` (lines 176-193).  It always calls
`qmachine_mgr.list_open_quantum_machines()` first, so a cleared (`None`)
manager global raises `AttributeError`; when `self_managed` it closes the
machine and clears both globals, otherwise it leaves the session untouched. -/
def cleanup (selfManaged : Bool) (g : QMGlobals) : Except Err QMGlobals :=
  match g.qmachine_mgr with
  | none => Except.error Err.attributeError
  | some _ =>
    if selfManaged then
      match g.qmachine with
      | none => Except.error Err.attributeError
      | some mid => Except.ok ⟨none, none, g.closed ++ [mid]⟩
    else Except.ok g

/-- result of one complete `collect` run: the loop outcome, the globals after
the `finally` block, and how many times `cleanup` ran.  The generator's
`try/finally` (lines 211, 283-284) runs `cleanup` exactly once on every exit
path — normal exhaustion, early close of the generator, or an error. -/
structure RunResult where
  loop : LoopRes
  globalsAfter : Except Err QMGlobals
  cleanupCalls : Nat

/-- a complete `collect` run: the while loop followed by the single `finally`
`cleanup()` call. -/
def runCollect (specs : List OPXSpec) (userData : List String) (batchsize : Nat)
    (sched : List IterEnv) (c0 : Nat) (selfManaged : Bool) (g : QMGlobals) :
    RunResult :=
  ⟨collectLoop specs userData batchsize sched c0 true, cleanup selfManaged g, 1⟩

/-- the stream whose `count_so_far()` sets `available_points` when this spec
sits at plan index 0: the I stream for a Complex spec (line 240), the spec's
own stream otherwise (line 266). -/
def backingCount (env : Env) (ds : OPXSpec) : Option Nat :=
  match ds with
  | OPXSpec.cplx _ iname _ => (env iname).map HandleState.count
  | OPXSpec.plain n => (env n).map HandleState.count
  | OPXSpec.timed n => (env n).map HandleState.count

/-- a plan entry that `collect` does not skip as synthetic: Complex entries
are never checked against `user_data`; other entries must not carry a
recorded synthetic name. -/
def notSynthetic (ds : OPXSpec) (userData : List String) : Prop :=
  match ds with
  | OPXSpec.cplx _ _ _ => True
  | _ => ds.name ∉ userData

instance notSyntheticDec (ds : OPXSpec) (userData : List String) :
    Decidable (notSynthetic ds userData) :=
  match ds with
  | OPXSpec.cplx _ _ _ => isTrue trivial
  | OPXSpec.plain n => inferInstanceAs (Decidable (OPXSpec.name (OPXSpec.plain n) ∉ userData))
  | OPXSpec.timed n => inferInstanceAs (Decidable (OPXSpec.name (OPXSpec.timed n) ∉ userData))

/-! ## Witness fixtures -/

/-- handle snapshot used by the concrete witnesses: stream `x` with three
scalar samples, streams `I` and `Q` with two scalar samples each. -/
def envW : Env := fun n =>
  if n = "x" then some ⟨3, [], fun k => (k : Int)⟩
  else if n = "I" then some ⟨2, [], fun k => (k : Int) + 10⟩
  else if n = "Q" then some ⟨2, [], fun k => (k : Int) + 20⟩
  else none

/-- the iteration state produced by the C1 witness run. -/
def stW : IterState := ⟨[("x", CellValue.real ⟨[2], [1, 2]⟩)], 3, [("x", 1, 3)]⟩

/-- readiness condition of one poll: every handle observation either saw the
job stopped or saw its count advanced by at least `batchsize` over the stored
counter. -/
def pollAllReady (counter batchsize : Nat) (p : List (Nat × Bool)) : Prop :=
  ∀ ob ∈ p, ob.2 = false ∨ (batchsize : Int) ≤ (ob.1 : Int) - (counter : Int)

/-- no observation of the poll saw the job still producing. -/
def pollNoneProcessing (p : List (Nat × Bool)) : Prop :=
  ∀ ob ∈ p, ob.2 = false

def hIW : HandleState := ⟨2, [], fun k => (k : Int) + 10⟩

def hQW : HandleState := ⟨2, [], fun k => (k : Int) + 20⟩

/-- handle snapshot with exactly one new scalar sample: its fetched and
squeezed array is 0-dimensional. -/
def envC4 : Env := fun n =>
  if n = "x" then some ⟨1, [], fun _ => 7⟩ else none

/-- every Timed entry of a resolved plan is immediately followed by its
synthetic `_time_points` entry. -/
def timedFollowed : List OPXSpec → Bool
  | [] => true
  | OPXSpec.timed n :: rest =>
    decide (rest.head? = some (OPXSpec.plain (n ++ "_time_points"))) && timedFollowed rest
  | _ :: rest => timedFollowed rest

/-- first witness snapshot for C8: stream `x` at two samples. -/
def envA : Env := fun n =>
  if n = "x" then some ⟨2, [], fun k => (k : Int)⟩ else none

/-- second witness snapshot for C8: stream `x` advanced to three samples. -/
def envB : Env := fun n =>
  if n = "x" then some ⟨3, [], fun k => (k : Int)⟩ else none

/-- two-iteration schedule for the C8 witness. -/
def schedW : List IterEnv := [⟨[[(2, true)]], envA⟩, ⟨[[(3, true)]], envB⟩]

/-! ## Helper lemmas -/

/-- all recorded fetches of an iteration run from the stored counter up to the
iteration's `available_points`. -/
def FetchInv (c ap : Nat) (l : List (String × Nat × Nat)) : Prop :=
  ∀ f ∈ l, f.2.1 = c ∧ f.2.2 = ap

theorem getDataFromHandle_eq (env : Env) (c : Nat) (nm : String) (ap : Nat)
    (hs : HandleState) (h : env nm = some hs) :
    getDataFromHandle env c nm ap =
      Except.ok (if ap = c then none else some (squeeze (fetchSlice hs c ap))) := by
  unfold getDataFromHandle
  split
  · rfl
  · rw [h]

theorem getKey_setKey (r : Record) (k : String) (v : CellValue) :
    getKey (setKey r k v) k = some v := by
  unfold getKey setKey
  split
  · rename_i hany
    induction r with
    | nil => simp at hany
    | cons p rest ih =>
      by_cases hp : p.1 == k
      · simp [List.find?, hp]
      · simp only [List.any_cons, hp, Bool.false_or] at hany
        simp only [List.map_cons, if_neg (by simp [hp] : ¬ (p.1 == k) = true)]
        simp only [List.find?, hp]
        exact ih hany
  · induction r with
    | nil => simp [List.find?]
    | cons p rest ih =>
      rename_i hany
      simp only [List.any_cons, Bool.or_eq_true, not_or] at hany
      simp only [List.cons_append, List.find?, Bool.not_eq_true] at *
      rw [hany.1]
      exact ih (by simpa using hany.2)

/-- a plan entry at index `i ≠ 0` never changes `available_points`, and only
adds fetches bounded by the stored counter and the current
`available_points`. -/
theorem processSpec_preserves (env : Env) (c : Nat) (ud : List String) (i : Nat)
    (ds : OPXSpec) (st st2 : IterState) (hi : i ≠ 0)
    (h : processSpec env c ud i ds st = Except.ok st2) :
    st2.availablePoints = st.availablePoints ∧
      (FetchInv c st.availablePoints st.fetches →
        FetchInv c st.availablePoints st2.fetches) := by
  cases ds with
  | cplx nm iname qname =>
    simp only [processSpec, if_neg hi] at h
    split at h
    · exact absurd h (by simp)
    · exact absurd h (by simp)
    · rename_i idata qdata heqi heqq
      split at h
      · rename_i ia qa
        split at h
        · exact absurd h (by simp)
        · rename_i ca hca
          injection h with h
          subst h
          refine ⟨rfl, fun hf f hm => ?_⟩
          rcases List.mem_append.1 hm with hm | hm
          · exact hf f hm
          · split at hm
            · simp at hm
            · rcases (by simpa using hm) with rfl | rfl <;> exact ⟨rfl, rfl⟩
      · rename_i hnb
        injection h with h
        subst h
        refine ⟨rfl, fun hf f hm => ?_⟩
        rcases List.mem_append.1 hm with hm | hm
        · exact hf f hm
        · split at hm
          · simp at hm
          · rcases (by simpa using hm) with rfl | rfl <;> exact ⟨rfl, rfl⟩
  | plain nm =>
    simp only [processSpec] at h
    split at h
    · injection h with h
      subst h
      exact ⟨rfl, fun hf => hf⟩
    · split at h
      · exact absurd h (by simp)
      · rename_i hs heq
        rw [getDataFromHandle_eq env c nm st.availablePoints hs heq] at h
        injection h with h
        subst h
        refine ⟨rfl, fun hf f hm => ?_⟩
        rcases List.mem_append.1 hm with hm | hm
        · exact hf f hm
        · split at hm
          · simp at hm
          · rcases (by simpa using hm) with rfl
            exact ⟨rfl, rfl⟩
  | timed nm =>
    simp only [processSpec] at h
    split at h
    · injection h with h
      subst h
      exact ⟨rfl, fun hf => hf⟩
    · split at h
      · exact absurd h (by simp)
      · rename_i hs heq
        rw [getDataFromHandle_eq env c nm st.availablePoints hs heq] at h
        by_cases hac : st.availablePoints = c
        · rw [if_pos hac] at h
          simp only [] at h
          injection h with h
          subst h
          exact ⟨rfl, fun hf => hf⟩
        · rw [if_neg hac] at h
          simp only [] at h
          split at h
          · exact absurd h (by simp)
          · rename_i tv htv
            injection h with h
            subst h
            refine ⟨rfl, fun hf f hm => ?_⟩
            rcases List.mem_append.1 hm with hm | hm
            · exact hf f hm
            · rcases (by simpa using hm) with rfl
              exact ⟨rfl, rfl⟩

/-- the plan entry at index 0, when not skipped as synthetic, sets
`available_points` to `count_so_far()` of its backing stream, and each of its
fetches runs from the counter to that value. -/
theorem processSpec_first (env : Env) (c : Nat) (ud : List String)
    (ds : OPXSpec) (st2 : IterState) (hns : notSynthetic ds ud)
    (h : processSpec env c ud 0 ds initIterState = Except.ok st2) :
    backingCount env ds = some st2.availablePoints ∧
      FetchInv c st2.availablePoints st2.fetches := by
  cases ds with
  | cplx nm iname qname =>
    simp only [processSpec, if_pos rfl] at h
    split at h
    · exact absurd h (by simp)
    · rename_i ap hap
      split at h
      · exact absurd h (by simp)
      · exact absurd h (by simp)
      · split at h
        · split at h
          · exact absurd h (by simp)
          · injection h with h
            subst h
            refine ⟨hap, fun f hm => ?_⟩
            simp only [initIterState, List.nil_append] at hm
            split at hm
            · simp at hm
            · rcases (by simpa using hm) with rfl | rfl <;> exact ⟨rfl, rfl⟩
        · injection h with h
          subst h
          refine ⟨hap, fun f hm => ?_⟩
          simp only [initIterState, List.nil_append] at hm
          split at hm
          · simp at hm
          · rcases (by simpa using hm) with rfl | rfl <;> exact ⟨rfl, rfl⟩
  | plain nm =>
    have hnm : nm ∉ ud := hns
    simp only [processSpec, if_neg hnm] at h
    split at h
    · exact absurd h (by simp)
    · rename_i hs heq
      simp only [if_true] at h
      rw [getDataFromHandle_eq env c nm hs.count hs heq] at h
      injection h with h
      subst h
      refine ⟨by simp [backingCount, heq], fun f hm => ?_⟩
      simp only [initIterState, List.nil_append] at hm
      split at hm
      · simp at hm
      · rcases (by simpa using hm) with rfl
        exact ⟨rfl, rfl⟩
  | timed nm =>
    have hnm : nm ∉ ud := hns
    simp only [processSpec, if_neg hnm] at h
    split at h
    · exact absurd h (by simp)
    · rename_i hs heq
      simp only [if_true] at h
      rw [getDataFromHandle_eq env c nm hs.count hs heq] at h
      by_cases hac : hs.count = c
      · rw [if_pos hac] at h
        injection h with h
        subst h
        refine ⟨by simp [backingCount, heq], fun f hm => ?_⟩
        simp only [initIterState] at hm
        simp at hm
      · rw [if_neg hac] at h
        split at h
        · exact absurd h (by simp)
        · rename_i heq2
          exact absurd heq2 (by simp)
        · rename_i a heq2
          split at h
          · exact absurd h (by simp)
          · injection h with h
            subst h
            refine ⟨by simp [backingCount, heq], fun f hm => ?_⟩
            simp only [initIterState, List.nil_append] at hm
            rcases (by simpa using hm) with rfl
            exact ⟨rfl, rfl⟩

/-- the loop tail (indices `≥ 1`) keeps `available_points` and the fetch
bounds of the iteration unchanged. -/
theorem processSpecs_preserves (env : Env) (c : Nat) (ud : List String)
    (l : List OPXSpec) :
    ∀ (i : Nat) (st st2 : IterState), i ≠ 0 →
      processSpecs env c ud l i st = Except.ok st2 →
      st2.availablePoints = st.availablePoints ∧
        (FetchInv c st.availablePoints st.fetches →
          FetchInv c st.availablePoints st2.fetches) := by
  induction l with
  | nil =>
    intro i st st2 _ h
    injection h with h
    subst h
    exact ⟨rfl, fun hf => hf⟩
  | cons ds rest ih =>
    intro i st st2 hi h
    simp only [processSpecs] at h
    split at h
    · exact absurd h (by simp)
    · rename_i st1 h1
      obtain ⟨hap1, hfi1⟩ := processSpec_preserves env c ud i ds st st1 hi h1
      obtain ⟨hap2, hfi2⟩ := ih (i + 1) st1 st2 (Nat.succ_ne_zero i) h
      rw [hap1] at hap2 hfi2
      exact ⟨hap2, fun hf => hfi2 (hfi1 hf)⟩

/-- one successful `collect` iteration over a plan whose first entry is not
synthetic: `available_points` is the first entry's backing-stream count, and
every backend fetch of the iteration covers `[counter, available_points)`. -/
theorem collectIteration_first (env : Env) (c : Nat) (d : OPXSpec)
    (rest : List OPXSpec) (ud : List String) (st : IterState)
    (hns : notSynthetic d ud)
    (h : collectIteration env c (d :: rest) ud = Except.ok st) :
    backingCount env d = some st.availablePoints ∧
      FetchInv c st.availablePoints st.fetches := by
  simp only [collectIteration, processSpecs] at h
  split at h
  · exact absurd h (by simp)
  · rename_i st1 h1
    obtain ⟨hbc, hfi⟩ := processSpec_first env c ud d st1 hns h1
    obtain ⟨hap, hpres⟩ := processSpecs_preserves env c ud rest 1 st1 st
      (Nat.one_ne_zero) h
    rw [hap]
    exact ⟨hbc, hpres hfi⟩

/-! ## Claim theorems -/

/-- C1: in every successful `collect` iteration, `available_points` is the
`count_so_far()` of the backing stream of the plan's first entry (the I
stream when the first entry is Complex), every backend fetch of the
iteration uses that single value as its upper bound (and the stored counter
as its lower bound), and the stored counter is then set to exactly
`available_points` for the next iteration. -/
theorem spec_C1 (env : Env) (c : Nat) (ud : List String) (d : OPXSpec)
    (rest : List OPXSpec) (st : IterState) (bs : Nat)
    (polls : List (List (Nat × Bool))) (a : Bool) (k : Nat)
    (hns : notSynthetic d ud)
    (h : collectIteration env c (d :: rest) ud = Except.ok st)
    (hw : waitForData c bs polls true = some (a, k)) :
    backingCount env d = some st.availablePoints
    ∧ (∀ f ∈ st.fetches, f.2.1 = c ∧ f.2.2 = st.availablePoints)
    ∧ (collectLoop (d :: rest) ud bs [⟨polls, env⟩] c true).finalCounter
        = st.availablePoints := by
  obtain ⟨h1, h2⟩ := collectIteration_first env c d rest ud st hns h
  refine ⟨h1, h2, ?_⟩
  simp only [collectLoop, hw, h]
  cases a <;> rfl

theorem spec_C1_witness :
    notSynthetic (OPXSpec.plain "x") ([] : List String)
    ∧ collectIteration envW 1 [OPXSpec.plain "x"] [] = Except.ok stW
    ∧ waitForData 1 1 [[(3, true)]] true = some (true, 0)
    ∧ (backingCount envW (OPXSpec.plain "x") = some stW.availablePoints
       ∧ (∀ f ∈ stW.fetches, f.2.1 = 1 ∧ f.2.2 = stW.availablePoints)
       ∧ (collectLoop [OPXSpec.plain "x"] [] 1 [⟨[[(3, true)]], envW⟩] 1 true).finalCounter
           = stW.availablePoints) :=
  ⟨by decide, rfl, rfl,
   spec_C1 envW 1 [] (OPXSpec.plain "x") [] stW 1 [[(3, true)]] true 0
     (by decide) rfl rfl⟩

theorem pollStatuses_ready_iff (counter batchsize : Nat) (p : List (Nat × Bool)) :
    (pollStatuses counter batchsize p).contains false = false ↔
      pollAllReady counter batchsize p := by
  induction p with
  | nil => simp [pollStatuses, pollAllReady]
  | cons ob rest ih =>
    simp only [pollStatuses, List.map_cons, List.contains_cons, Bool.or_eq_false_iff,
      pollAllReady, List.mem_cons, forall_eq_or_imp] at *
    constructor
    · rintro ⟨h1, h2⟩
      refine ⟨?_, ih.1 h2⟩
      by_cases hb : ob.2 = true
      · rw [if_pos hb] at h1
        right
        simpa using (by simpa using h1 : ¬ (false = decide ((batchsize : Int) ≤ (ob.1 : Int) - (counter : Int))))
      · exact Or.inl (by simpa using hb)
    · rintro ⟨h1, h2⟩
      refine ⟨?_, ih.2 h2⟩
      rcases h1 with h1 | h1
      · rw [if_neg (by simp [h1])]
        simp
      · by_cases hb : ob.2 = true
        · rw [if_pos hb]
          simp [h1]
        · rw [if_neg hb]
          simp

theorem pollProcessing_none_iff (p : List (Nat × Bool)) :
    (pollProcessing p).contains true = false ↔ pollNoneProcessing p := by
  induction p with
  | nil => simp [pollProcessing, pollNoneProcessing]
  | cons ob rest ih =>
    simp only [pollProcessing, List.map_cons, List.contains_cons, Bool.or_eq_false_iff,
      pollNoneProcessing, List.mem_cons, forall_eq_or_imp] at *
    constructor
    · rintro ⟨h1, h2⟩
      exact ⟨by simpa using h1, ih.1 h2⟩
    · rintro ⟨h1, h2⟩
      exact ⟨by simpa using h1, ih.2 h2⟩

/-- a poll that is not ready must have observed the job still producing on
some handle (`statuses` only receives `False` inside the
`is_processing()`-true branch). -/
theorem pollStatuses_not_ready_processing (counter batchsize : Nat)
    (p : List (Nat × Bool))
    (h : (pollStatuses counter batchsize p).contains false = true) :
    (pollProcessing p).contains true = true := by
  induction p with
  | nil => simp [pollStatuses] at h
  | cons ob rest ih =>
    simp only [pollStatuses, List.map_cons, List.contains_cons, Bool.or_eq_true] at h
    simp only [pollProcessing, List.map_cons, List.contains_cons, Bool.or_eq_true]
    rcases h with h | h
    · left
      by_cases hb : ob.2 = true
      · simp [hb]
      · rw [if_neg hb] at h
        simp at h
    · exact Or.inr (ih h)

/-- C2: `_wait_for_data(batchsize)` resolves only on a poll in which every
handle observation either advanced by at least `batchsize` since the stored
counter or saw the job no longer producing; and it clears `active` exactly
when the resolving poll had no observation of the job still producing, after
which the `while active` loop performs no further iterations. -/
theorem spec_C2 (c b : Nat) (polls : List (List (Nat × Bool))) (a : Bool) (k : Nat)
    (h : waitForData c b polls true = some (a, k)) :
    (∃ p, polls[k]? = some p ∧ pollAllReady c b p ∧
      (a = false ↔ pollNoneProcessing p))
    ∧ (a = false → ∀ (specs : List OPXSpec) (ud : List String)
        (sched : List IterEnv) (c2 : Nat),
        collectLoop specs ud b sched c2 a = ⟨[], c2, none, false⟩) := by
  constructor
  · induction polls generalizing a k with
    | nil => simp [waitForData] at h
    | cons p rest ih =>
      simp only [waitForData] at h
      by_cases hr : (pollStatuses c b p).contains false = false
      · rw [hr] at h
        simp only [Bool.not_false, if_true] at h
        injection h with h
        obtain ⟨ha, hk⟩ : a = (if (pollProcessing p).contains true then true else false)
            ∧ k = 0 := by
          have h1 := congrArg Prod.fst h
          have h2 := congrArg Prod.snd h
          exact ⟨h1.symm, h2.symm⟩
        refine ⟨p, by simp [hk], (pollStatuses_ready_iff c b p).1 hr, ?_⟩
        by_cases hpr : (pollProcessing p).contains true = true
        · rw [if_pos hpr] at ha
          constructor
          · intro hfalse
            rw [ha] at hfalse
            exact absurd hfalse (by simp)
          · intro hnone
            have := (pollProcessing_none_iff p).2 hnone
            rw [this] at hpr
            exact absurd hpr (by simp)
        · rw [if_neg hpr] at ha
          have hnone := (pollProcessing_none_iff p).1 (by simpa using hpr)
          exact ⟨fun _ => hnone, fun _ => ha⟩
      · have hr' : (pollStatuses c b p).contains false = true := by
          simpa using hr
        rw [hr'] at h
        have hpr : (pollProcessing p).contains true = true :=
          pollStatuses_not_ready_processing c b p hr'
        rw [hpr] at h
        simp only [Bool.not_true, Bool.false_eq_true, if_false, if_true] at h
        cases hrec : waitForData c b rest true with
        | none => rw [hrec] at h; simp at h
        | some pair =>
          obtain ⟨a2, k2⟩ := pair
          rw [hrec] at h
          simp only [Option.some.injEq, Prod.mk.injEq] at h
          obtain ⟨ha, hk⟩ := h
          obtain ⟨p2, hp2, hready, hiff⟩ := ih a2 k2 hrec
          subst ha
          refine ⟨p2, ?_, hready, hiff⟩
          rw [← hk]
          simpa using hp2
  · intro ha specs ud sched c2
    subst ha
    cases sched <;> rfl

theorem spec_C2_witness :
    waitForData 120 100 [[(150, true), (121, true)], [(200, false), (230, true)]] true
      = some (true, 1)
    ∧ (∃ p, [[(150, true), (121, true)], [(200, false), (230, true)]][(1 : Nat)]? = some p
        ∧ pollAllReady 120 100 p ∧ (true = false ↔ pollNoneProcessing p))
    ∧ (true = false → ∀ (specs : List OPXSpec) (ud : List String)
        (sched : List IterEnv) (c2 : Nat),
        collectLoop specs ud 100 sched c2 true = ⟨[], c2, none, false⟩) :=
  ⟨rfl,
   (spec_C2 120 100 [[(150, true), (121, true)], [(200, false), (230, true)]] true 1 rfl).1,
   (spec_C2 120 100 [[(150, true), (121, true)], [(200, false), (230, true)]] true 1 rfl).2⟩

/-- C3: a Complex plan entry whose I and Q streams are advertised and share
one sample shape: when the fetch range `[counter, available_points)` is
non-empty, both streams are fetched and the record maps the column name to
the elementwise complex combination (pairs of I value and Q value, i.e.
`i + 1j*q`); when the range is empty, both fetches return `None`, the column
name is not written to the record, and no error is raised. -/
theorem spec_C3 (env : Env) (c : Nat) (ud : List String) (i : Nat)
    (st : IterState) (nm iname qname : String) (hI hQ : HandleState) (ap : Nat)
    (hiI : env iname = some hI) (hiQ : env qname = some hQ)
    (hsh : hI.innerShape = hQ.innerShape)
    (hap : ap = if i = 0 then hI.count else st.availablePoints) :
    (ap ≠ c →
      processSpec env c ud i (OPXSpec.cplx nm iname qname) st =
        Except.ok ⟨setKey st.returnData nm (CellValue.cplx
            ⟨(squeeze (fetchSlice hI c ap)).shape,
             (squeeze (fetchSlice hI c ap)).data.zip
               (squeeze (fetchSlice hQ c ap)).data⟩),
          ap, st.fetches ++ [(iname, c, ap), (qname, c, ap)]⟩)
    ∧ (ap = c →
      processSpec env c ud i (OPXSpec.cplx nm iname qname) st =
        Except.ok ⟨st.returnData, ap, st.fetches⟩) := by
  have hsc : (if i = 0 then (env iname).map HandleState.count
      else some st.availablePoints) = some ap := by
    by_cases hi : i = 0 <;> simp [hi, hiI, hap]
  constructor <;> intro hc
  · have hcc : complexCombine (squeeze (fetchSlice hI c ap))
        (squeeze (fetchSlice hQ c ap)) =
        some ⟨(squeeze (fetchSlice hI c ap)).shape,
          (squeeze (fetchSlice hI c ap)).data.zip
            (squeeze (fetchSlice hQ c ap)).data⟩ := by
      unfold complexCombine
      rw [if_pos (by simp [squeeze, fetchSlice, hsh])]
    simp only [processSpec, hsc, getDataFromHandle_eq env c iname ap hI hiI,
      getDataFromHandle_eq env c qname ap hQ hiQ, if_neg hc, hcc]
  · simp only [processSpec, hsc, getDataFromHandle_eq env c iname ap hI hiI,
      getDataFromHandle_eq env c qname ap hQ hiQ, if_pos hc, List.append_nil]

theorem spec_C3_witness :
    (envW "I" = some hIW ∧ envW "Q" = some hQW
      ∧ hIW.innerShape = hQW.innerShape
      ∧ (2 : Nat) = (if (0 : Nat) = 0 then hIW.count else initIterState.availablePoints))
    ∧ (((2 : Nat) ≠ 0 →
        processSpec envW 0 [] 0 (OPXSpec.cplx "z" "I" "Q") initIterState =
          Except.ok ⟨setKey initIterState.returnData "z" (CellValue.cplx
              ⟨(squeeze (fetchSlice hIW 0 2)).shape,
               (squeeze (fetchSlice hIW 0 2)).data.zip
                 (squeeze (fetchSlice hQW 0 2)).data⟩),
            2, initIterState.fetches ++ [("I", 0, 2), ("Q", 0, 2)]⟩)
      ∧ ((2 : Nat) = 0 →
        processSpec envW 0 [] 0 (OPXSpec.cplx "z" "I" "Q") initIterState =
          Except.ok ⟨initIterState.returnData, 2, initIterState.fetches⟩)) :=
  ⟨⟨rfl, rfl, rfl, rfl⟩,
   spec_C3 envW 0 [] 0 initIterState "z" "I" "Q" hIW hQW 2 rfl rfl rfl rfl⟩

/-- C4 counterexample: a Timed column whose squeezed fetch is 0-dimensional
(one new scalar sample) makes the iteration fail with the index error raised
by `data.shape[-1]`, not with the UnsupportedShapeError the claim predicts
for every rank other than 1 or 2. -/
theorem spec_C4_counterexample :
    collectIteration envC4 0 [OPXSpec.timed "x", OPXSpec.plain "x_time_points"]
      ["x_time_points"] = Except.error Err.indexError
    ∧ Err.indexError ≠ Err.unsupportedShapeError
    ∧ (squeeze (fetchSlice ⟨1, [], fun _ => 7⟩ 0 1)).shape = [] :=
  ⟨rfl, by decide, rfl⟩

/-- C4 (amended): for a Timed column with non-`None` fetched data, a 1-D
array of length N yields time points `1..N`, a 2-D array of shape (R, N)
yields the `1..N` sequence tiled R times in shape (R, N), any rank three or
higher raises UnsupportedShapeError, while rank 0 raises an index error
(while evaluating the trailing dimension) instead; every successfully
synthesized time-points array has exactly the data array's shape, and the
record of the iteration carries the Timed column and its `_time_points`
entry together. -/
theorem spec_C4 (a : NDArray Int) :
    (∀ n, a.shape = [n] → timeVals a = Except.ok ⟨[n], arangeOneTo n⟩)
    ∧ (∀ r n, a.shape = [r, n] →
        timeVals a = Except.ok ⟨[r, n], (List.replicate r (arangeOneTo n)).flatten⟩)
    ∧ (3 ≤ a.shape.length → timeVals a = Except.error Err.unsupportedShapeError)
    ∧ (a.shape = [] → timeVals a = Except.error Err.indexError)
    ∧ (∀ tv, timeVals a = Except.ok tv → tv.shape = a.shape)
    ∧ (∀ (env : Env) (c : Nat) (ud : List String) (i : Nat) (st : IterState)
        (nm : String) (h : HandleState) (ap : Nat) (tv : NDArray Int),
        nm ∉ ud → env nm = some h →
        ap = (if i = 0 then h.count else st.availablePoints) → ap ≠ c →
        squeeze (fetchSlice h c ap) = a → timeVals a = Except.ok tv →
        processSpec env c ud i (OPXSpec.timed nm) st =
          Except.ok ⟨setKey (setKey st.returnData nm (CellValue.real a))
              (nm ++ "_time_points") (CellValue.real tv), ap,
            st.fetches ++ [(nm, c, ap)]⟩) := by
  obtain ⟨sh, dat⟩ := a
  refine ⟨?_, ?_, ?_, ?_, ?_, ?_⟩
  · intro n hsh
    simp only at hsh
    subst hsh
    rfl
  · intro r n hsh
    simp only at hsh
    subst hsh
    rfl
  · intro h3
    simp only at h3
    unfold timeVals
    cases hg : sh.getLast? with
    | none =>
      rw [List.getLast?_eq_none_iff] at hg
      subst hg
      simp at h3
    | some n =>
      simp only
      rw [if_neg (by omega), if_neg (by omega)]
  · intro h0
    simp only at h0
    subst h0
    rfl
  · intro tv htv
    match sh with
    | [] => exact absurd htv (by simp [timeVals])
    | [x] =>
      have : timeVals ⟨[x], dat⟩ = Except.ok ⟨[x], arangeOneTo x⟩ := rfl
      rw [this] at htv
      injection htv with htv
      subst htv
      rfl
    | [x, y] =>
      have : timeVals ⟨[x, y], dat⟩ =
          Except.ok ⟨[x, y], (List.replicate x (arangeOneTo y)).flatten⟩ := rfl
      rw [this] at htv
      injection htv with htv
      subst htv
      rfl
    | x :: y :: z :: l =>
      have h3 : 3 ≤ (NDArray.mk (x :: y :: z :: l) dat).shape.length := by
        simp only [List.length_cons]
        omega
      have he : timeVals ⟨x :: y :: z :: l, dat⟩ = Except.error Err.unsupportedShapeError := by
        unfold timeVals
        cases hg : (x :: y :: z :: l).getLast? with
        | none =>
          rw [List.getLast?_eq_none_iff] at hg
          exact absurd hg (by simp)
        | some n =>
          simp only
          rw [if_neg (by simp only [List.length_cons]; omega),
            if_neg (by simp only [List.length_cons]; omega)]
      rw [he] at htv
      exact absurd htv (by simp)
  · intro env c ud i st nm h ap tv hnm heq hap hc hsq htv
    simp only [processSpec, if_neg hnm, heq, ← hap,
      getDataFromHandle_eq env c nm ap h heq, if_neg hc, hsq, htv]

/-- C10: a non-Complex, non-synthetic plan entry reached when
`available_points` equals the stored counter (no new samples) still writes
its column name into the record, mapped to `None`, and raises no error. -/
theorem spec_C10 (env : Env) (c : Nat) (ud : List String) (i : Nat)
    (st : IterState) (nm : String) (h : HandleState) (ap : Nat)
    (hnm : nm ∉ ud) (heq : env nm = some h)
    (hap : ap = (if i = 0 then h.count else st.availablePoints)) (hc : ap = c) :
    processSpec env c ud i (OPXSpec.plain nm) st =
      Except.ok ⟨setKey st.returnData nm CellValue.vnone, ap, st.fetches⟩
    ∧ processSpec env c ud i (OPXSpec.timed nm) st =
      Except.ok ⟨setKey st.returnData nm CellValue.vnone, ap, st.fetches⟩
    ∧ getKey (setKey st.returnData nm CellValue.vnone) nm = some CellValue.vnone := by
  refine ⟨?_, ?_, getKey_setKey st.returnData nm CellValue.vnone⟩
  · simp only [processSpec, if_neg hnm, heq, ← hap,
      getDataFromHandle_eq env c nm ap h heq, if_pos hc, List.append_nil]
  · simp only [processSpec, if_neg hnm, heq, ← hap,
      getDataFromHandle_eq env c nm ap h heq, if_pos hc]

theorem spec_C4_witness :
    ((⟨[3], [5, 6, 7]⟩ : NDArray Int).shape = [3]
      ∧ (3 : Nat) ≤ (⟨[2, 2, 2], List.replicate 8 0⟩ : NDArray Int).shape.length)
    ∧ timeVals ⟨[3], [5, 6, 7]⟩ = Except.ok ⟨[3], arangeOneTo 3⟩
    ∧ timeVals ⟨[2, 2, 2], List.replicate 8 0⟩ = Except.error Err.unsupportedShapeError :=
  ⟨⟨rfl, by decide⟩,
   (spec_C4 ⟨[3], [5, 6, 7]⟩).1 3 rfl,
   (spec_C4 ⟨[2, 2, 2], List.replicate 8 0⟩).2.2.1 (by decide)⟩

theorem spec_C10_witness :
    ("x" ∉ ([] : List String) ∧ envW "x" = some ⟨3, [], fun k => (k : Int)⟩
      ∧ (3 : Nat) = (if (0 : Nat) = 0 then
          (⟨3, [], fun k => (k : Int)⟩ : HandleState).count
          else initIterState.availablePoints)
      ∧ (3 : Nat) = 3)
    ∧ (processSpec envW 3 [] 0 (OPXSpec.plain "x") initIterState =
        Except.ok ⟨setKey initIterState.returnData "x" CellValue.vnone, 3,
          initIterState.fetches⟩
      ∧ processSpec envW 3 [] 0 (OPXSpec.timed "x") initIterState =
        Except.ok ⟨setKey initIterState.returnData "x" CellValue.vnone, 3,
          initIterState.fetches⟩
      ∧ getKey (setKey initIterState.returnData "x" CellValue.vnone) "x"
          = some CellValue.vnone) :=
  ⟨⟨by decide, rfl, rfl, rfl⟩,
   spec_C10 envW 3 [] 0 initIterState "x" ⟨3, [], fun k => (k : Int)⟩ 3
     (by decide) rfl rfl rfl⟩

/-- C5 counterexample: for the single declaration `Timed "x"`, the resolved
plan places the synthetic `x_time_points` column immediately AFTER the Timed
column, not immediately before it as the claim states. -/
theorem spec_C5_counterexample :
    resolveSpecs [OPXSpec.timed "x"] =
      ([OPXSpec.timed "x", OPXSpec.plain "x_time_points"], ["x_time_points"])
    ∧ (resolveSpecs [OPXSpec.timed "x"]).1 ≠
      [OPXSpec.plain "x_time_points", OPXSpec.timed "x"] :=
  ⟨rfl, by decide⟩

/-- C5 (amended): for every list of declarations containing a Timed
declaration, the resolved plan contains the synthetic column
`<name>_time_points` positioned immediately AFTER the Timed column `<name>`,
its name is recorded in `user_data`, and a plan entry carrying a recorded
synthetic name is skipped by the assembler (never fetched from the
backend). -/
theorem spec_C5 :
    (∀ l : List OPXSpec, timedFollowed (resolveSpecs l).1 = true)
    ∧ (∀ (l : List OPXSpec) (n : String), OPXSpec.timed n ∈ (resolveSpecs l).1 →
        (n ++ "_time_points") ∈ (resolveSpecs l).2)
    ∧ (∀ (env : Env) (c : Nat) (ud : List String) (i : Nat) (st : IterState)
        (nm : String), nm ∈ ud →
        processSpec env c ud i (OPXSpec.plain nm) st = Except.ok st) := by
  refine ⟨?_, ?_, ?_⟩
  · intro l
    induction l with
    | nil => rfl
    | cons s rest ih =>
      cases s with
      | timed n =>
        simp only [resolveSpecs, timedFollowed, List.head?_cons, ih, Bool.and_true]
        simp
      | plain n =>
        simpa only [resolveSpecs, timedFollowed] using ih
      | cplx n i q =>
        simpa only [resolveSpecs, timedFollowed] using ih
  · intro l n
    induction l with
    | nil => simp [resolveSpecs]
    | cons s rest ih =>
      cases s with
      | timed m =>
        simp only [resolveSpecs, List.mem_cons]
        rintro (hm | hm | hm)
        · injection hm with hm
          subst hm
          exact Or.inl rfl
        · exact absurd hm (by simp)
        · exact Or.inr (ih hm)
      | plain m =>
        simp only [resolveSpecs, List.mem_cons]
        rintro (hm | hm)
        · exact absurd hm (by simp)
        · exact ih hm
      | cplx m i q =>
        simp only [resolveSpecs, List.mem_cons]
        rintro (hm | hm)
        · exact absurd hm (by simp)
        · exact ih hm
  · intro env c ud i st nm hm
    simp [processSpec, hm]

theorem spec_C5_witness :
    (OPXSpec.timed "x" ∈ (resolveSpecs [OPXSpec.plain "y", OPXSpec.timed "x"]).1
      ∧ "x" ∈ ["a", "x"])
    ∧ (timedFollowed (resolveSpecs [OPXSpec.plain "y", OPXSpec.timed "x"]).1 = true
      ∧ ("x" ++ "_time_points") ∈ (resolveSpecs [OPXSpec.plain "y", OPXSpec.timed "x"]).2
      ∧ processSpec envW 0 ["a", "x"] 1 (OPXSpec.plain "x") initIterState
          = Except.ok initIterState) :=
  ⟨⟨by decide, by decide⟩,
   spec_C5.1 [OPXSpec.plain "y", OPXSpec.timed "x"],
   spec_C5.2.1 [OPXSpec.plain "y", OPXSpec.timed "x"] "x" (by decide),
   spec_C5.2.2 envW 0 ["a", "x"] 1 initIterState "x" (by decide)⟩

/-- C9 counterexample: constructing with two declarations named `x` does not
fail — the resolution of `__init__` is a total function and the resolved
plan simply contains the duplicate columns. -/
theorem spec_C9_counterexample :
    resolveSpecs [OPXSpec.plain "x", OPXSpec.plain "x"] =
      ([OPXSpec.plain "x", OPXSpec.plain "x"], [])
    ∧ (((resolveSpecs [OPXSpec.plain "x", OPXSpec.plain "x"]).1.map OPXSpec.name).count "x"
        = 2) :=
  ⟨rfl, by decide⟩

/-- C9 (amended): construction performs no duplicate-name validation — every
declaration is kept in the resolved plan, so a name occurring twice among the
declarations occurs (at least) twice in the plan, and no ConfigurationError
is possible during resolution. -/
theorem spec_C9 (l : List OPXSpec) (nm : String) :
    (l.map OPXSpec.name).count nm ≤ ((resolveSpecs l).1.map OPXSpec.name).count nm := by
  induction l with
  | nil => simp [resolveSpecs]
  | cons s rest ih =>
    cases s with
    | timed n =>
      simp only [resolveSpecs, List.map_cons, List.count_cons]
      omega
    | plain n =>
      simp only [resolveSpecs, List.map_cons, List.count_cons]
      omega
    | cplx n i q =>
      simp only [resolveSpecs, List.map_cons, List.count_cons]
      omega

/-- C7 counterexample: after a completed self-managed run, `cleanup()` has
cleared the manager global, so calling it a second time fails (the
`list_open_quantum_machines` call on `None`) — `cleanup` is not idempotent
when the session is owned. -/
theorem spec_C7_counterexample :
    cleanup true ⟨some 5, some 5, []⟩ = Except.ok ⟨none, none, [5]⟩
    ∧ cleanup true ⟨none, none, [5]⟩ = Except.error Err.attributeError :=
  ⟨rfl, rfl⟩

/-- C7 (amended): `cleanup` closes the machine exactly when the run is
self-managed (`sessionOwned`): an externally supplied session is never
closed and repeating `cleanup` on it is harmless, while for an owned session
a successful `cleanup` clears the globals and a second call fails with an
attribute error; `setup` marks the run self-managed exactly when no session
was already open. -/
theorem spec_C7 :
    (∀ (g : QMGlobals) (m : Nat), g.qmachine_mgr = some m → cleanup false g = Except.ok g)
    ∧ (∀ (g g2 : QMGlobals), cleanup false g = Except.ok g2 → g2.closed = g.closed)
    ∧ (∀ (g : QMGlobals) (m mid : Nat), g.qmachine_mgr = some m → g.qmachine = some mid →
        cleanup true g = Except.ok ⟨none, none, g.closed ++ [mid]⟩)
    ∧ (∀ (g g2 : QMGlobals) (sm : Bool), cleanup true g = Except.ok g2 →
        cleanup sm g2 = Except.error Err.attributeError)
    ∧ (∀ (g : QMGlobals) (fid : Nat),
        (setupLifecycle g fid).2 = true ↔ (g.qmachine_mgr = none ∧ g.qmachine = none)) := by
  refine ⟨?_, ?_, ?_, ?_, ?_⟩
  · intro g m hm
    simp [cleanup, hm]
  · intro g g2 h
    unfold cleanup at h
    split at h
    · exact absurd h (by simp)
    · rw [if_neg (by simp)] at h
      injection h with h
      subst h
      rfl
  · intro g m mid hm hq
    simp [cleanup, hm, hq]
  · intro g g2 sm h
    unfold cleanup at h
    split at h
    · exact absurd h (by simp)
    · rw [if_pos rfl] at h
      split at h
      · exact absurd h (by simp)
      · injection h with h
        subst h
        rfl
  · intro g fid
    unfold setupLifecycle
    by_cases hg : g.qmachine_mgr = none ∧ g.qmachine = none
    · simp [hg]
    · simp [hg]

theorem spec_C7_witness :
    ((⟨some 7, some 9, [1]⟩ : QMGlobals).qmachine_mgr = some 9
      ∧ (⟨some 7, some 9, [1]⟩ : QMGlobals).qmachine = some 7)
    ∧ cleanup false ⟨some 7, some 9, [1]⟩ = Except.ok ⟨some 7, some 9, [1]⟩
    ∧ cleanup true ⟨some 7, some 9, [1]⟩ = Except.ok ⟨none, none, [1] ++ [7]⟩
    ∧ ((setupLifecycle ⟨none, none, []⟩ 4).2 = true ↔
        ((⟨none, none, []⟩ : QMGlobals).qmachine_mgr = none
          ∧ (⟨none, none, []⟩ : QMGlobals).qmachine = none)) :=
  ⟨⟨rfl, rfl⟩,
   spec_C7.1 ⟨some 7, some 9, [1]⟩ 9 rfl,
   spec_C7.2.2.1 ⟨some 7, some 9, [1]⟩ 9 7 rfl rfl,
   spec_C7.2.2.2.2 ⟨none, none, []⟩ 4⟩

/-- C6: a non-Complex, non-synthetic plan entry whose name is absent from
the advertised result-handle streams makes the iteration fail immediately
with the ConfigurationError (`RuntimeError` of line 261); the run yields no
record for that iteration, the loop ends with that error, and the
`try/finally` invokes `cleanup` exactly once. -/
theorem spec_C6 :
    (∀ (env : Env) (c : Nat) (ud : List String) (i : Nat) (st : IterState)
      (nm : String), nm ∉ ud → env nm = none →
      processSpec env c ud i (OPXSpec.plain nm) st =
        Except.error (Err.configurationError nm)
      ∧ processSpec env c ud i (OPXSpec.timed nm) st =
        Except.error (Err.configurationError nm))
    ∧ (∀ (specs : List OPXSpec) (ud : List String) (bs : Nat)
        (sched : List IterEnv) (c0 : Nat) (sm : Bool) (g : QMGlobals),
        (runCollect specs ud bs sched c0 sm g).cleanupCalls = 1)
    ∧ (∀ (specs : List OPXSpec) (ud : List String) (bs : Nat) (ie : IterEnv)
        (rest : List IterEnv) (c : Nat) (e : Err) (a : Bool) (k : Nat),
        waitForData c bs ie.polls true = some (a, k) →
        collectIteration ie.env c specs ud = Except.error e →
        collectLoop specs ud bs (ie :: rest) c true = ⟨[], c, some e, a⟩) := by
  refine ⟨?_, ?_, ?_⟩
  · intro env c ud i st nm hnm henv
    constructor
    · simp [processSpec, if_neg hnm, henv]
    · simp [processSpec, if_neg hnm, henv]
  · intro specs ud bs sched c0 sm g
    rfl
  · intro specs ud bs ie rest c e a k hw hit
    simp [collectLoop, hw, hit]

theorem spec_C6_witness :
    ("bogus" ∉ ([] : List String) ∧ envW "bogus" = none
      ∧ waitForData 0 1 [[(5, true)]] true = some (true, 0)
      ∧ collectIteration envW 0 [OPXSpec.plain "bogus"] [] =
          Except.error (Err.configurationError "bogus"))
    ∧ (processSpec envW 0 [] 0 (OPXSpec.plain "bogus") initIterState =
        Except.error (Err.configurationError "bogus")
      ∧ (runCollect [OPXSpec.plain "bogus"] [] 1 [⟨[[(5, true)]], envW⟩] 0 true
          ⟨some 1, some 1, []⟩).cleanupCalls = 1
      ∧ collectLoop [OPXSpec.plain "bogus"] [] 1 [⟨[[(5, true)]], envW⟩] 0 true =
          ⟨[], 0, some (Err.configurationError "bogus"), true⟩) :=
  ⟨⟨by decide, rfl, rfl, rfl⟩,
   (spec_C6.1 envW 0 [] 0 initIterState "bogus" (by decide) rfl).1,
   spec_C6.2.1 [OPXSpec.plain "bogus"] [] 1 [⟨[[(5, true)]], envW⟩] 0 true
     ⟨some 1, some 1, []⟩,
   spec_C6.2.2 [OPXSpec.plain "bogus"] [] 1 ⟨[[(5, true)]], envW⟩ [] 0
     (Err.configurationError "bogus") true 0 rfl rfl⟩

/-- C8: when the backing stream of the plan's first (non-synthetic) entry
has monotonically non-decreasing counts along the schedule, the stored
counter never decreases across `collect` iterations, every iteration's
fetches run from that iteration's starting counter to its
`available_points`, consecutive iterations chain exactly (each starts at the
previous upper bound), and the consumed index ranges of distinct iterations
never overlap. -/
theorem spec_C8 (d : OPXSpec) (rest : List OPXSpec) (ud : List String)
    (bs : Nat) (hns : notSynthetic d ud) :
    ∀ (sched : List IterEnv) (c : Nat) (act : Bool),
      List.Chain' (· ≤ ·) (c :: sched.filterMap (fun ie => backingCount ie.env d)) →
      List.Chain' (· ≤ ·)
        (c :: (collectLoop (d :: rest) ud bs sched c act).iters.map
          (fun p => p.2.availablePoints))
      ∧ List.Chain' (fun p q => p.2.availablePoints = q.1)
          (collectLoop (d :: rest) ud bs sched c act).iters
      ∧ (∀ p, (collectLoop (d :: rest) ud bs sched c act).iters.head? = some p →
          p.1 = c)
      ∧ (∀ p ∈ (collectLoop (d :: rest) ud bs sched c act).iters, c ≤ p.1)
      ∧ (∀ p ∈ (collectLoop (d :: rest) ud bs sched c act).iters,
          ∀ f ∈ p.2.fetches, f.2.1 = p.1 ∧ f.2.2 = p.2.availablePoints)
      ∧ List.Pairwise (fun p q => p.2.availablePoints ≤ q.1)
          (collectLoop (d :: rest) ud bs sched c act).iters := by
  intro sched
  induction sched with
  | nil =>
    intro c act _
    cases act <;> simp [collectLoop]
  | cons ie rest2 ih =>
    intro c act hchain
    cases act with
    | false => simp [collectLoop]
    | true =>
      cases hw : waitForData c bs ie.polls true with
      | none => simp [collectLoop, hw]
      | some pair =>
        obtain ⟨a, k⟩ := pair
        cases hit : collectIteration ie.env c (d :: rest) ud with
        | error e => simp [collectLoop, hw, hit]
        | ok st =>
          obtain ⟨hbc, hfi⟩ := collectIteration_first ie.env c d rest ud st hns hit
          have hfm : (ie :: rest2).filterMap (fun ie2 => backingCount ie2.env d)
              = st.availablePoints ::
                rest2.filterMap (fun ie2 => backingCount ie2.env d) := by
            simp [List.filterMap_cons, hbc]
          rw [hfm, List.chain'_cons] at hchain
          obtain ⟨hle, hchain2⟩ := hchain
          obtain ⟨ih1, ih2, ih3, ih4, ih5, ih6⟩ := ih st.availablePoints a hchain2
          simp only [collectLoop, hw, hit, List.map_cons]
          refine ⟨List.chain'_cons.2 ⟨hle, ih1⟩, ?_, ?_, ?_, ?_, ?_⟩
          · rw [List.chain'_cons']
            exact ⟨fun q hq => (ih3 q hq).symm, ih2⟩
          · intro p hp
            simp only [List.head?_cons, Option.some.injEq] at hp
            rw [← hp]
          · intro p hp
            rcases List.mem_cons.1 hp with rfl | hm
            · exact le_refl c
            · exact le_trans hle (ih4 p hm)
          · intro p hp
            rcases List.mem_cons.1 hp with rfl | hm
            · exact hfi
            · exact ih5 p hm
          · exact List.pairwise_cons.2 ⟨fun q hq => ih4 q hq, ih6⟩

theorem spec_C8_witness :
    (notSynthetic (OPXSpec.plain "x") ([] : List String)
      ∧ List.Chain' (· ≤ ·)
          (0 :: schedW.filterMap (fun ie => backingCount ie.env (OPXSpec.plain "x"))))
    ∧ (List.Chain' (· ≤ ·)
        (0 :: (collectLoop [OPXSpec.plain "x"] [] 1 schedW 0 true).iters.map
          (fun p => p.2.availablePoints))
      ∧ List.Chain' (fun p q => p.2.availablePoints = q.1)
          (collectLoop [OPXSpec.plain "x"] [] 1 schedW 0 true).iters
      ∧ (∀ p, (collectLoop [OPXSpec.plain "x"] [] 1 schedW 0 true).iters.head? = some p →
          p.1 = 0)
      ∧ (∀ p ∈ (collectLoop [OPXSpec.plain "x"] [] 1 schedW 0 true).iters, 0 ≤ p.1)
      ∧ (∀ p ∈ (collectLoop [OPXSpec.plain "x"] [] 1 schedW 0 true).iters,
          ∀ f ∈ p.2.fetches, f.2.1 = p.1 ∧ f.2.2 = p.2.availablePoints)
      ∧ List.Pairwise (fun p q => p.2.availablePoints ≤ q.1)
          (collectLoop [OPXSpec.plain "x"] [] 1 schedW 0 true).iters) :=
  ⟨⟨by decide, by
      rw [show schedW.filterMap (fun ie => backingCount ie.env (OPXSpec.plain "x"))
          = [2, 3] from rfl]
      refine List.chain'_cons.2 ⟨by omega, List.chain'_cons.2 ⟨by omega, ?_⟩⟩
      simp⟩,
   spec_C8 (OPXSpec.plain "x") [] [] 1 (by decide) schedW 0 true (by
      rw [show schedW.filterMap (fun ie => backingCount ie.env (OPXSpec.plain "x"))
          = [2, 3] from rfl]
      refine List.chain'_cons.2 ⟨by omega, List.chain'_cons.2 ⟨by omega, ?_⟩⟩
      simp)⟩

end LabcoreOPX
